import Mathlib

/-!
Verification of the generic-cli request-dispatch core.

Shallow embedding of `generic_cli` (client.py, config.py, signals.py,
defaults.py, utils.py).  HTTP responses are identified by their numeric
status, exceptions by an abstract kind, hosts and URL fragments by strings.
-/

namespace GenericCli

/-- Exception kinds visible to the retry classifier.  `clientConnectionError`
embeds `aiohttp.client_exceptions.ClientConnectionError`; every other
exception class is an opaque kind. -/
inductive ErrKind where
  | clientConnectionError
  | other (n : Nat)
deriving DecidableEq

/-- Value carried by a retry signal: either the failing response (identified
by its status) or the exception that the attempt raised. -/
inductive SigValue where
  | resp (status : Nat)
  | exc (e : ErrKind)
deriving DecidableEq

/-- signals.py: `ShouldRetry(Signal)` — an exception carrying the value to
surface if retries are exhausted (`self._return = return_`). -/
inductive Signal where
  | shouldRetry (v : SigValue)
deriving DecidableEq

/-- utils.py `minutes`: seconds in that many minutes (`mins * 60`). -/
def minutes (mins : Nat) : Nat := mins * 60

/-- `str(c)` applied to a `Union[str, int]` retry code. -/
def strOfCode : String ⊕ Nat → String
  | Sum.inl s => s
  | Sum.inr n => toString n

/-- config.py `SessionConfig` as constructed (the dataclass fields before
`__post_init__` runs).  `retry_policy` abstracts the tenacity stop budget;
the wait strategy only affects timing, never outcomes. -/
structure SessionConfig where
  retry_codes : List (String ⊕ Nat)
  retry_errors : List ErrKind
  retry_policy : Nat
  timeout : Nat
  on_connerr : Bool
  on_timeout : Bool
deriving DecidableEq

/-- defaults.py: `RETRY_CODES = {'5xx'}`, `TIMEOUT = 30`, and the dataclass
defaults `on_connerr=True`, `on_timeout=False`, `retry_errors=()`. -/
def SessionConfig.default : SessionConfig :=
  ⟨[Sum.inl "5xx"], [], 30, 30, true, false⟩

/-- `SessionConfig.__post_init__`, first statement:
`self.retry_codes = {str(retry_code) for retry_code in self.retry_codes}`. -/
def SessionConfig.post_init_codes (c : SessionConfig) : List String :=
  c.retry_codes.map strOfCode

/-- `SessionConfig.__post_init__`, second statement: when `on_connerr` is
set, `ClientConnectionError` is appended to the retriable error classes. -/
def SessionConfig.post_init_errors (c : SessionConfig) : List ErrKind :=
  if c.on_connerr then c.retry_errors ++ [ErrKind.clientConnectionError]
  else c.retry_errors

/-- client.py `Client._check_status`: stringify the status and raise
`ShouldRetry(response)` when the full code, the two-digit family
(`'NNx'`) or the one-digit family (`'Nxx'`) is among the retry codes.
`none` means no signal was raised. -/
def check_status (retry_codes : List String) (status : Nat) : Option Signal :=
  let str_status := toString status
  if str_status ∈ retry_codes
      ∨ (str_status.take 2 ++ "x") ∈ retry_codes
      ∨ (str_status.take 1 ++ "xx") ∈ retry_codes then
    some (Signal.shouldRetry (SigValue.resp status))
  else
    none

/-- client.py `Client._check_error`: an exception raised inside the guarded
block is re-raised as `ShouldRetry(ex)` when its class is among
`config.retry_errors`, and propagates unchanged otherwise. -/
def check_error (retry_errors : List ErrKind) (e : ErrKind) : Signal ⊕ ErrKind :=
  if e ∈ retry_errors then Sum.inl (Signal.shouldRetry (SigValue.exc e))
  else Sum.inr e

/-- What the transport call inside one attempt does: return a response or
raise an exception. -/
inductive TransportResult where
  | respond (status : Nat)
  | raiseErr (e : ErrKind)
deriving DecidableEq

/-- One attempt as seen by `Client._retriable_issue`.  `duration` is the
ghost wall-clock time the attempt takes; the code never reads a clock in
the request path, so it appears here only so that timing-dependent claims
can be stated. -/
structure Attempt where
  duration : Nat
  result : TransportResult
deriving DecidableEq

/-- Outcome of one `Client._retriable_issue` attempt body. -/
inductive AttemptOutcome where
  | ok (status : Nat)
  | signal (v : SigValue)
  | propagate (e : ErrKind)
deriving DecidableEq

/-- client.py `Client._retriable_issue` body (one attempt): run the
transport call under `_check_error`, then `_check_status` on the response.
The configured `timeout` field is not consulted anywhere on this path. -/
def retriable_issue_attempt (c : SessionConfig) (a : Attempt) : AttemptOutcome :=
  match a.result with
  | TransportResult.raiseErr e =>
    match check_error c.post_init_errors e with
    | Sum.inl (Signal.shouldRetry v) => AttemptOutcome.signal v
    | Sum.inr e' => AttemptOutcome.propagate e'
  | TransportResult.respond st =>
    match check_status c.post_init_codes st with
    | some (Signal.shouldRetry v) => AttemptOutcome.signal v
    | none => AttemptOutcome.ok st

/-- Result of running the tenacity-wrapped attempt loop, as observed by the
caller of the decorated function. -/
inductive DriverResult where
  | done (status : Nat)
  | raisedOther (e : ErrKind)
  | retryError (v : SigValue)
deriving DecidableEq

/-- The tenacity retry loop as wired in `Client.__init__`:
`retry(..., retry=retry_if_exception_type(ShouldRetry))`.  `att k` is the
outcome of the k-th attempt body; `retriesLeft` abstracts the stop
strategy as the number of further attempts it still permits.  A success
returns, a non-`ShouldRetry` exception propagates immediately, and a
`ShouldRetry` either triggers another attempt or — once the stop condition
is reached — makes tenacity raise a `RetryError` wrapping the final
attempt's `ShouldRetry`. -/
def tenacityRun (att : Nat → AttemptOutcome) : Nat → Nat → DriverResult
  | k, 0 =>
    match att k with
    | AttemptOutcome.ok st => DriverResult.done st
    | AttemptOutcome.propagate e => DriverResult.raisedOther e
    | AttemptOutcome.signal v => DriverResult.retryError v
  | k, n + 1 =>
    match att k with
    | AttemptOutcome.ok st => DriverResult.done st
    | AttemptOutcome.propagate e => DriverResult.raisedOther e
    | AttemptOutcome.signal _ => tenacityRun att (k + 1) n

/-- signals.py `return_from_signal`: catch `tenacity.RetryError`, re-raise
the wrapped exception, and on a `Signal` either raise its carried value
(when it is an exception) or return it. -/
def return_from_signal (d : DriverResult) : DriverResult :=
  match d with
  | DriverResult.retryError (SigValue.exc e) => DriverResult.raisedOther e
  | DriverResult.retryError (SigValue.resp r) => DriverResult.done r
  | x => x

/-- client.py `Client.get_host` for a Dynamic client (the `_static` branch
taken as given), with two ghost parameters the code never reads: the time
of the last successful resolution and the current time.  Returns the host
`get_host` yields together with the number of resolver-service lookups the
call performs (`resolve_host` is entered only when `_host is None`);
`resolver` is the host a fresh lookup would return. -/
def get_host_model (static : Bool) (host : Option String) (resolver : String)
    (resolvedAt now : Nat) : Option String × Nat :=
  if static then (host, 0)
  else
    match host with
    | some h => (some h, 0)
    | none => (some resolver, 1)

/-- Structured error payload of a non-2xx JSON body:
`payload.get('status')` and `payload.get('cls')`. -/
structure ErrorPayload where
  status : Option String
  cls : Option String
deriving DecidableEq

/-- What `Client.issue` does after `retriable_issue` returned a response. -/
inductive IssueResult where
  | response (status : Nat)
  | raised (tag : String) (exc : Nat)
  | decodeError
deriving DecidableEq

/-- client.py `Client.issue` post-processing: when `res.status != 200`,
decode the JSON body (a decode failure propagates out of the bare
`except: raise` handler); when the payload has `status == 'error'` and a
non-None `cls` tag registered in `self.exceptions`, raise the mapped
exception class applied to the payload; otherwise yield the raw
response.  Registered exception classes are identified by `Nat` ids. -/
def issue_check (exceptions : List (String × Nat)) (status : Nat)
    (decoded : Except Unit ErrorPayload) : IssueResult :=
  if status ≠ 200 then
    match decoded with
    | Except.error _ => IssueResult.decodeError
    | Except.ok p =>
      if p.status = some "error" ∧ p.cls ≠ none then
        match p.cls with
        | some tag =>
          match exceptions.lookup tag with
          | some c => IssueResult.raised tag c
          | none => IssueResult.response status
        | none => IssueResult.response status
      else IssueResult.response status
  else IssueResult.response status

/-- Python truthiness of an `Optional[str]`: `None` and `''` are falsy. -/
def pyTruthy : Option String → Bool
  | none => false
  | some s => s ≠ ""

/-- Class-level declarative attributes of a `Client` subclass:
`host`, `service_name` and the class URL path piece `pfx` (source
attribute name: the 6-letter path-piece attribute defaulting to `''`). -/
structure ClsAttrs where
  host : Option String
  service_name : Option String
  pfx : String
deriving DecidableEq

/-- Instance attributes established by a successful `Client.__init__`. -/
structure InitState where
  static : Bool
  host : Option String
  service_name : Option String
  pfx : Option String
  env : Option String
deriving DecidableEq

/-- client.py `Client.__init__` — argument validation and attribute
merging (the config merge is modelled separately by `SessionConfig`).
Mirrors the source order: the two both-levels truthiness checks, then
`service_name or self.service_name`, `host or self.host`, the
`prefix if prefix is None else self.prefix` conditional (the path-piece
argument is `none` when the caller passes Python `None`), and the
static/auto-resolve decision with its `not service_name and not env`
guard. -/
def client_init (cls : ClsAttrs) (env : Option String)
    (service_name : Option String) (pfxArg : Option String)
    (host : Option String) : Except String InitState :=
  if pyTruthy cls.service_name ∧ pyTruthy service_name then
    Except.error "service_name specified at both class and instance level"
  else if cls.pfx ≠ "" ∧ pyTruthy pfxArg then
    Except.error "prefix specified at both class and instance level"
  else
    let service_name := if pyTruthy service_name then service_name else cls.service_name
    let host := if pyTruthy host then host else cls.host
    let pfx : Option String := if pfxArg = none then none else some cls.pfx
    if ¬ pyTruthy host then
      if ¬ pyTruthy service_name ∧ ¬ pyTruthy env then
        Except.error "In auto-resolve mode both service_name and env must be provided"
      else
        Except.ok ⟨false, host, service_name, pfx, env⟩
    else
      Except.ok ⟨true, host, service_name, pfx, env⟩

/-- client.py `Client.get_base_url`: the f-string `host` followed by
`self._prefix` (a Python `None` renders as the string `"None"`). -/
def get_base_url (host : String) (pfx : Option String) : String :=
  host ++ (match pfx with | some s => s | none => "None")

/-- Whether a driver result is a raw tenacity `RetryError`. -/
def DriverResult.isRetryError : DriverResult → Bool
  | DriverResult.retryError _ => true
  | _ => false

/-- The caller-facing outcome `return_from_signal` produces from a carried
signal value: raise it if it is an exception, return it otherwise. -/
def unwrapValue : SigValue → DriverResult
  | SigValue.exc e => DriverResult.raisedOther e
  | SigValue.resp r => DriverResult.done r

/-- An attempt that takes 100 time units — far beyond the configured
default timeout of 30 — and then succeeds with status 200. -/
def slowOkAttempt : Attempt := ⟨100, TransportResult.respond 200⟩

/-- An attempt body that always fails with a retriable 503 response. -/
def att503 : Nat → AttemptOutcome :=
  fun _ => AttemptOutcome.signal (SigValue.resp 503)

/-! Concurrent host resolution:
`Client.get_host`/`Client.resolve_host` under asyncio's single-threaded
cooperative scheduling.  Each concurrent `get_host` caller is a coroutine;
a scheduler step resumes one caller and runs it to its next suspension
point, which is how asyncio interleaves them. -/

/-- Program counter of one coroutine running `get_host` on a Dynamic
client (`_static` is false): about to run `get_host`'s checks; suspended
inside the CrossRoads lookup of `resolve_host`; suspended on
`__resolved.wait()` in `_wait_for_host_resolution`; terminated by the
lookup's exception; or returned from `get_host` with value `v`. -/
inductive PC where
  | start
  | looking
  | waiting
  | failed
  | done (v : Option String)
deriving DecidableEq

/-- Whether a caller has returned from `get_host`. -/
def PC.isDone : PC → Bool
  | PC.done _ => true
  | _ => false

/-- Shared `Client` state touched by `get_host`/`resolve_host` —
`_host`, `__resolving`, whether the current `__resolved` event is set —
plus the ghost counter `lookups` of resolver-service lookups started, and
the program counters of the concurrent callers. -/
structure Sys where
  host : Option String
  resolving : Bool
  eventSet : Bool
  lookups : Nat
  callers : List PC
deriving DecidableEq

/-- Number of callers currently inside the resolver-service lookup. -/
def looksAt (l : List PC) : Nat := l.countP (fun pc => pc == PC.looking)

/-- One cooperative-scheduler step: resume caller `i` and run it to its
next suspension point (or to completion).  `H` is the host the resolver
service returns and `ok` whether the lookup succeeds; both are consulted
only when caller `i` is suspended inside the lookup.

* `start` — `get_host` returns `_host` if it is not `None`; otherwise it
  enters `resolve_host`, which reads `__resolving` and, with no await
  point in between, either goes to wait on the shared `__resolved` event,
  or sets `__resolving`, installs a fresh (unset) event and suspends
  inside the CrossRoads lookup.
* `looking` — the lookup returns `H`: `resolve_host` stores `_host`,
  clears `__resolving`, sets the event, and `get_host` returns the stored
  host (the host cannot change before that read: it is only written
  here).  If instead the lookup raises, the exception propagates out of
  `resolve_host` to this caller alone; `__resolving` stays set and the
  event is never set (there is no try/finally).
* `waiting` — `__resolved.wait()` returns only once the event is set; the
  caller then returns the current `_host`. -/
def Sys.step (H : String) (s : Sys) (i : Nat) (ok : Bool) : Sys :=
  match s.callers[i]? with
  | none => s
  | some pc =>
    match pc with
    | PC.start =>
      match s.host with
      | some h => { s with callers := s.callers.set i (PC.done (some h)) }
      | none =>
        if s.resolving then
          { s with callers := s.callers.set i PC.waiting }
        else
          { s with resolving := true, eventSet := false,
                   lookups := s.lookups + 1,
                   callers := s.callers.set i PC.looking }
    | PC.looking =>
      if ok then
        { s with host := some H, resolving := false, eventSet := true,
                 callers := s.callers.set i (PC.done (some H)) }
      else
        { s with callers := s.callers.set i PC.failed }
    | PC.waiting =>
      if s.eventSet then
        { s with callers := s.callers.set i (PC.done s.host) }
      else s
    | PC.failed => s
    | PC.done _ => s

/-- Run a schedule: each entry resumes one caller, paired with the success
flag its lookup (if any) sees. -/
def Sys.run (H : String) (s : Sys) (sched : List (Nat × Bool)) : Sys :=
  sched.foldl (fun t p => Sys.step H t p.1 p.2) s

/-- N fresh concurrent `get_host` calls on a Dynamic client with no cached
host: `_host is None`, `__resolving` false, no event set yet. -/
def Sys.init (n : Nat) : Sys := ⟨none, false, false, 0, List.replicate n PC.start⟩

/-- Inductive invariant of the resolution state machine. -/
structure Inv (H : String) (s : Sys) : Prop where
  host_val : ∀ h, s.host = some h → h = H
  lookups_le : s.lookups ≤ 1
  fresh : s.lookups = 0 →
    s.host = none ∧ s.resolving = false ∧ s.eventSet = false
      ∧ ∀ pc ∈ s.callers, pc = PC.start
  event : s.eventSet = true → s.host = some H ∧ s.resolving = false
  resolving_st : s.resolving = true →
    s.host = none ∧ s.eventSet = false ∧ s.lookups = 1 ∧ looksAt s.callers ≤ 1
  idle_no_look : s.resolving = false → looksAt s.callers = 0
  one_lookup : s.lookups = 1 → s.resolving = true ∨ s.host = some H
  done_val : ∀ v, PC.done v ∈ s.callers → v = some H

/-- A client wedged by a failed resolution: `_host` still `None`,
`__resolving` still set, the event never set, the single lookup spent, and
every caller either not yet inside `resolve_host`, parked on the event, or
killed by the propagated lookup exception. -/
def Stuck (s : Sys) : Prop :=
  s.host = none ∧ s.resolving = true ∧ s.eventSet = false ∧ s.lookups = 1
  ∧ ∀ pc ∈ s.callers, pc = PC.start ∨ pc = PC.waiting ∨ pc = PC.failed

/-- A schedule on three callers: caller 0 starts the lookup, callers 1 and
2 pile in behind it, the lookup succeeds, everyone drains. -/
def wsched : List (Nat × Bool) :=
  [(0, true), (1, true), (2, true), (0, true), (1, true), (2, true)]

/-- Three concurrent `get_host` callers; caller 0 starts the resolution,
caller 1 suspends behind it, and then caller 0's lookup raises.  Caller 2
has not stepped yet: it models the next `get_host` call made after the
failure. -/
def failSys : Sys := Sys.run "h" (Sys.init 3) [(0, true), (1, true), (0, false)]

end GenericCli

namespace GenericCli

/-- C2: an attempt returning status S raises a `ShouldRetry` carrying the
response exactly when the string form of S, or its two-digit-plus-"x"
family, or its one-digit-plus-"xx" family, is among the configured retry
codes after `__post_init__` has normalized them to strings. -/
theorem check_status_retry_iff (c : SessionConfig) (status : Nat) :
    check_status c.post_init_codes status
        = some (Signal.shouldRetry (SigValue.resp status))
      ↔ (toString status ∈ c.retry_codes.map strOfCode
         ∨ (toString status).take 2 ++ "x" ∈ c.retry_codes.map strOfCode
         ∨ (toString status).take 1 ++ "xx" ∈ c.retry_codes.map strOfCode) := by
  simp only [check_status, SessionConfig.post_init_codes]
  split
  · simp_all
  · simp_all

/-- C8: when the connection-error option is on (as it is by default),
`__post_init__` puts the transport connection-failure kind into the
retriable error classes, and an attempt failing with a connection-level
error is classified retriable: `_check_error` turns it into a
`ShouldRetry` carrying the error. -/
theorem connerr_retriable (c : SessionConfig) (hc : c.on_connerr = true) :
    ErrKind.clientConnectionError ∈ c.post_init_errors
    ∧ check_error c.post_init_errors ErrKind.clientConnectionError
        = Sum.inl (Signal.shouldRetry (SigValue.exc ErrKind.clientConnectionError))
    ∧ SessionConfig.default.on_connerr = true := by
  have hmem : ErrKind.clientConnectionError ∈ c.post_init_errors := by
    unfold SessionConfig.post_init_errors
    rw [hc]
    simp
  refine ⟨hmem, ?_, rfl⟩
  unfold check_error
  rw [if_pos hmem]

/-- Witness for C8 at the default configuration. -/
theorem connerr_retriable_witness :
    SessionConfig.default.on_connerr = true
    ∧ (ErrKind.clientConnectionError ∈ SessionConfig.default.post_init_errors
       ∧ check_error SessionConfig.default.post_init_errors ErrKind.clientConnectionError
           = Sum.inl (Signal.shouldRetry (SigValue.exc ErrKind.clientConnectionError))
       ∧ SessionConfig.default.on_connerr = true) :=
  ⟨rfl, connerr_retriable SessionConfig.default rfl⟩

/-- C9 counterexample: under the default configuration an attempt lasting
longer than the configured timeout is not aborted and not classified as a
retriable connection-error condition; it simply returns its result.  The
configured timeout is never applied to an attempt. -/
theorem timeout_not_applied_cex :
    slowOkAttempt.duration > SessionConfig.default.timeout
    ∧ retriable_issue_attempt SessionConfig.default slowOkAttempt
        = AttemptOutcome.ok 200
    ∧ retriable_issue_attempt SessionConfig.default slowOkAttempt
        ≠ AttemptOutcome.signal (SigValue.exc ErrKind.clientConnectionError) := by
  refine ⟨by decide, by decide, by decide⟩

/-- C9 amended: the outcome of an attempt is independent of the configured
timeout and of the attempt's elapsed time — the `timeout` config field is
stored but never consulted in the request path. -/
theorem attempt_independent_of_timeout (c : SessionConfig) (a : Attempt) (t d : Nat) :
    retriable_issue_attempt { c with timeout := t } { a with duration := d }
      = retriable_issue_attempt c a := by
  unfold retriable_issue_attempt check_error check_status
      SessionConfig.post_init_errors SessionConfig.post_init_codes
  rfl

/-- C3: when the stop condition exhausts the retries — tenacity ends with a
`RetryError` wrapping the final attempt's `ShouldRetry` — the
`return_from_signal` wrapper surfaces exactly the carried value: it raises
it when it is an exception and returns it (the last failing response)
otherwise, and it never lets a raw `RetryError` reach the caller. -/
theorem return_from_signal_unwraps (att : Nat → AttemptOutcome) (k n : Nat)
    (v : SigValue) (h : tenacityRun att k n = DriverResult.retryError v) :
    return_from_signal (tenacityRun att k n) = unwrapValue v
    ∧ (return_from_signal (tenacityRun att k n)).isRetryError = false := by
  rw [h]
  cases v <;> simp [return_from_signal, DriverResult.isRetryError, unwrapValue]

/-- Witness for C3: three attempts all returning a retriable 503; the
wrapper hands the caller the last failing response itself. -/
theorem return_from_signal_unwraps_witness :
    tenacityRun att503 0 2 = DriverResult.retryError (SigValue.resp 503)
    ∧ (return_from_signal (tenacityRun att503 0 2) = unwrapValue (SigValue.resp 503)
       ∧ (return_from_signal (tenacityRun att503 0 2)).isRetryError = false) :=
  ⟨rfl, return_from_signal_unwraps att503 0 2 (SigValue.resp 503) rfl⟩

/-- C5 counterexample: a Dynamic client that resolved its host at time 0
still returns the cached host, performing no resolver-service lookup, on a
`get_host` call made strictly after the claimed 60-minute expiry — even
though a fresh lookup would now return a different host. -/
theorem get_host_no_expiry_cex :
    get_host_model false (some "h") "h2" 0 (minutes 60 + 1) = (some "h", 0)
    ∧ minutes 60 + 1 > 0 + minutes 60 := by
  exact ⟨rfl, by decide⟩

/-- C5 amended: once a Dynamic client holds a cached host, every later
`get_host` call returns it without any resolver-service lookup, no matter
how much time has passed — the cache never expires. -/
theorem get_host_cache_forever (h resolver : String) (resolvedAt now : Nat) :
    get_host_model false (some h) resolver resolvedAt now = (some h, 0) := rfl

/-- C6: for a non-2xx response whose decoded payload carries
`status == 'error'` and a `cls` tag, `issue` raises the registered mapped
exception when the tag is in the registry, and yields the raw response to
the caller when the tag is unregistered. -/
theorem issue_error_mapping (exceptions : List (String × Nat)) (status : Nat)
    (p : ErrorPayload) (tag : String)
    (h2xx : status / 100 ≠ 2) (hs : p.status = some "error")
    (hc : p.cls = some tag) :
    (∀ c, exceptions.lookup tag = some c →
        issue_check exceptions status (Except.ok p) = IssueResult.raised tag c)
    ∧ (exceptions.lookup tag = none →
        issue_check exceptions status (Except.ok p) = IssueResult.response status) := by
  have h200 : status ≠ 200 := fun heq => h2xx (by rw [heq])
  constructor
  · intro c hlook
    simp [issue_check, h200, hs, hc, hlook]
  · intro hlook
    simp [issue_check, h200, hs, hc, hlook]

/-- Witness for C6 at a 404 with payload
`(status := 'error', cls := 'NotFound')`, once with the tag registered and
once with an empty registry. -/
theorem issue_error_mapping_witness :
    ((404 : Nat) / 100 ≠ 2)
    ∧ issue_check [("NotFound", 7)] 404
        (Except.ok ⟨some "error", some "NotFound"⟩) = IssueResult.raised "NotFound" 7
    ∧ issue_check [] 404
        (Except.ok ⟨some "error", some "NotFound"⟩) = IssueResult.response 404 :=
  ⟨by decide,
   (issue_error_mapping [("NotFound", 7)] 404 ⟨some "error", some "NotFound"⟩
      "NotFound" (by decide) rfl rfl).1 7 rfl,
   (issue_error_mapping [] 404 ⟨some "error", some "NotFound"⟩
      "NotFound" (by decide) rfl rfl).2 rfl⟩

/-- C7: the both-levels `service_name` check fires as claimed, and the
auto-resolve guard fires when both `service_name` and `env` are missing —
but a client constructed with no host, a `service_name` and **no** `env`
is accepted, although the guard's own error message says both must be
provided.  The middle conjunct is the failing input. -/
theorem init_env_guard_gap :
    client_init ⟨none, some "svc", ""⟩ none (some "svc") (some "") none
      = Except.error "service_name specified at both class and instance level"
    ∧ client_init ⟨none, none, ""⟩ none (some "svc") (some "") none
      = Except.ok ⟨false, none, some "svc", some "", none⟩
    ∧ client_init ⟨none, none, ""⟩ none none (some "") none
      = Except.error "In auto-resolve mode both service_name and env must be provided" := by
  refine ⟨rfl, rfl, rfl⟩

/-- C10: when the class-level path piece is the default empty string, a
non-empty instance-level path-piece argument passes validation but is then
discarded — the stored value is the class one (the conditional keeps the
instance value only when it is Python `None`) — so `get_base_url` yields
the bare host. -/
theorem client_init_pfx_field (cls : ClsAttrs) (env sn pfxArg host : Option String)
    (st : InitState) (hinit : client_init cls env sn pfxArg host = Except.ok st) :
    st.pfx = if pfxArg = none then none else some cls.pfx := by
  simp only [client_init] at hinit
  repeat' split at hinit
  all_goals cases hinit
  all_goals simp [*]

theorem instance_pfx_discarded (cls : ClsAttrs) (env sn host : Option String)
    (p : String) (hst : String) (st : InitState)
    (hcls : cls.pfx = "") (hp : p ≠ "")
    (hinit : client_init cls env sn (some p) host = Except.ok st) :
    st.pfx = some "" ∧ get_base_url hst st.pfx = hst := by
  have hpfx : st.pfx = some "" := by
    rw [client_init_pfx_field cls env sn (some p) host st hinit]
    simp [hcls]
  refine ⟨hpfx, ?_⟩
  rw [hpfx]
  simp [get_base_url]

theorem countP_set_balance (p : PC → Bool) (l : List PC) (i : Nat) (a b : PC)
    (hget : l[i]? = some a) :
    (l.set i b).countP p + (if p a then 1 else 0)
      = l.countP p + (if p b then 1 else 0) := by
  induction l generalizing i with
  | nil => simp at hget
  | cons x xs ih =>
    cases i with
    | zero =>
      simp only [List.getElem?_cons_zero] at hget
      cases hget
      simp only [List.set, List.countP_cons]
      omega
    | succ j =>
      have h := ih j (by simpa using hget)
      simp only [List.set, List.countP_cons]
      omega

theorem looksAt_set (l : List PC) (i : Nat) (a b : PC) (hget : l[i]? = some a) :
    looksAt (l.set i b) + (if a == PC.looking then 1 else 0)
      = looksAt l + (if b == PC.looking then 1 else 0) :=
  countP_set_balance (fun pc => pc == PC.looking) l i a b hget

theorem looksAt_pos (l : List PC) (i : Nat) (hget : l[i]? = some PC.looking) :
    1 ≤ looksAt l := by
  have hmem : PC.looking ∈ l := List.getElem?_mem hget
  have : 0 < l.countP (fun pc => pc == PC.looking) :=
    List.countP_pos_iff.mpr ⟨PC.looking, hmem, by simp⟩
  simpa [looksAt] using this

/-- The inductive invariant is preserved by every scheduler step. -/
theorem step_inv (H : String) (s : Sys) (i : Nat) (ok : Bool) (hs : Inv H s) :
    Inv H (Sys.step H s i ok) := by
  cases hget : s.callers[i]? with
  | none =>
    have hstep : Sys.step H s i ok = s := by
      simp only [Sys.step, hget]
    rw [hstep]; exact hs
  | some pc =>
    have hmem : pc ∈ s.callers := List.getElem?_mem hget
    cases pc with
    | failed =>
      have hstep : Sys.step H s i ok = s := by
        simp only [Sys.step, hget]
      rw [hstep]; exact hs
    | done v =>
      have hstep : Sys.step H s i ok = s := by
        simp only [Sys.step, hget]
      rw [hstep]; exact hs
    | start =>
      cases hhost : s.host with
      | some h =>
        have hH : h = H := hs.host_val h hhost
        have hstep : Sys.step H s i ok
            = { s with callers := s.callers.set i (PC.done (some h)) } := by
          simp [Sys.step, hget, hhost]
        rw [hstep]
        have hla : looksAt (s.callers.set i (PC.done (some h))) = looksAt s.callers := by
          simpa using looksAt_set s.callers i PC.start (PC.done (some h)) hget
        refine ⟨hs.host_val, hs.lookups_le, ?_, hs.event, ?_, ?_, hs.one_lookup, ?_⟩
        · intro h0
          exact absurd ((hs.fresh h0).1) (by simp [hhost])
        · intro hres
          obtain ⟨h1, h2, h3, h4⟩ := hs.resolving_st hres
          refine ⟨h1, h2, h3, ?_⟩
          show looksAt (s.callers.set i (PC.done (some h))) ≤ 1
          omega
        · intro hres
          have := hs.idle_no_look hres
          show looksAt (s.callers.set i (PC.done (some h))) = 0
          omega
        · intro v hv
          rcases List.mem_or_eq_of_mem_set hv with hv' | hv'
          · exact hs.done_val v hv'
          · cases hv'
            exact congrArg some hH
      | none =>
        cases hres : s.resolving with
        | true =>
          have hstep : Sys.step H s i ok
              = { s with callers := s.callers.set i PC.waiting } := by
            simp [Sys.step, hget, hhost, hres]
          rw [hstep]
          have hla : looksAt (s.callers.set i PC.waiting) = looksAt s.callers := by
            simpa using looksAt_set s.callers i PC.start PC.waiting hget
          refine ⟨hs.host_val, hs.lookups_le, ?_, hs.event, ?_, ?_, hs.one_lookup, ?_⟩
          · intro h0
            exact absurd ((hs.fresh h0).2.1) (by simp [hres])
          · intro hr
            obtain ⟨h1, h2, h3, h4⟩ := hs.resolving_st hr
            refine ⟨h1, h2, h3, ?_⟩
            show looksAt (s.callers.set i PC.waiting) ≤ 1
            omega
          · intro hr
            have := hs.idle_no_look hr
            show looksAt (s.callers.set i PC.waiting) = 0
            omega
          · intro v hv
            rcases List.mem_or_eq_of_mem_set hv with hv' | hv'
            · exact hs.done_val v hv'
            · cases hv'
        | false =>
          have hstep : Sys.step H s i ok
              = { s with resolving := true, eventSet := false,
                         lookups := s.lookups + 1,
                         callers := s.callers.set i PC.looking } := by
            simp [Sys.step, hget, hhost, hres]
          rw [hstep]
          have hlook0 : s.lookups = 0 := by
            have hle := hs.lookups_le
            rcases Nat.lt_or_ge s.lookups 1 with h1 | h1
            · omega
            · have h2 : s.lookups = 1 := by omega
              rcases hs.one_lookup h2 with hr | hh
              · rw [hres] at hr; cases hr
              · rw [hhost] at hh; cases hh
          have hall : ∀ pc ∈ s.callers, pc = PC.start := (hs.fresh hlook0).2.2.2
          have hla : looksAt (s.callers.set i PC.looking) = looksAt s.callers + 1 := by
            have h0 := looksAt_set s.callers i PC.start PC.looking hget
            simp at h0
            omega
          have hla0 : looksAt s.callers = 0 := hs.idle_no_look hres
          refine ⟨hs.host_val, ?_, ?_, ?_, ?_, ?_, ?_, ?_⟩
          · show s.lookups + 1 ≤ 1
            omega
          · intro h0
            exact absurd (show s.lookups + 1 = 0 from h0) (by omega)
          · intro hev
            cases hev
          · intro _
            refine ⟨hhost, rfl, ?_, ?_⟩
            · show s.lookups + 1 = 1
              omega
            · show looksAt (s.callers.set i PC.looking) ≤ 1
              omega
          · intro hr
            cases hr
          · intro _
            exact Or.inl rfl
          · intro v hv
            rcases List.mem_or_eq_of_mem_set hv with hv' | hv'
            · exact hs.done_val v hv'
            · cases hv'
    | looking =>
      have hla1 : 1 ≤ looksAt s.callers := looksAt_pos s.callers i hget
      have hres : s.resolving = true := by
        cases hr : s.resolving with
        | true => rfl
        | false =>
          have := hs.idle_no_look hr
          omega
      obtain ⟨hhost, hev, hlook, hlaLe⟩ := hs.resolving_st hres
      have hlaEq : looksAt s.callers = 1 := by omega
      cases ok with
      | true =>
        have hstep : Sys.step H s i true
            = { s with host := some H, resolving := false, eventSet := true,
                       callers := s.callers.set i (PC.done (some H)) } := by
          simp [Sys.step, hget]
        rw [hstep]
        have hla : looksAt (s.callers.set i (PC.done (some H))) + 1 = looksAt s.callers := by
          have h0 := looksAt_set s.callers i PC.looking (PC.done (some H)) hget
          simp at h0
          omega
        refine ⟨?_, ?_, ?_, ?_, ?_, ?_, ?_, ?_⟩
        · intro h hh
          cases hh
          rfl
        · show s.lookups ≤ 1
          omega
        · intro h0
          exact absurd (show s.lookups = 0 from h0) (by omega)
        · intro _
          exact ⟨rfl, rfl⟩
        · intro hr
          cases hr
        · intro _
          show looksAt (s.callers.set i (PC.done (some H))) = 0
          omega
        · intro _
          exact Or.inr rfl
        · intro v hv
          rcases List.mem_or_eq_of_mem_set hv with hv' | hv'
          · exact hs.done_val v hv'
          · cases hv'
            rfl
      | false =>
        have hstep : Sys.step H s i false
            = { s with callers := s.callers.set i PC.failed } := by
          simp [Sys.step, hget]
        rw [hstep]
        have hla : looksAt (s.callers.set i PC.failed) + 1 = looksAt s.callers := by
          have h0 := looksAt_set s.callers i PC.looking PC.failed hget
          simp at h0
          omega
        refine ⟨hs.host_val, hs.lookups_le, ?_, hs.event, ?_, ?_, hs.one_lookup, ?_⟩
        · intro h0
          exact absurd (show s.lookups = 0 from h0) (by omega)
        · intro _
          refine ⟨hhost, hev, hlook, ?_⟩
          show looksAt (s.callers.set i PC.failed) ≤ 1
          omega
        · intro hr
          rw [hres] at hr
          cases hr
        · intro v hv
          rcases List.mem_or_eq_of_mem_set hv with hv' | hv'
          · exact hs.done_val v hv'
          · cases hv'
    | waiting =>
      cases hev : s.eventSet with
      | false =>
        have hstep : Sys.step H s i ok = s := by
          simp [Sys.step, hget, hev]
        rw [hstep]; exact hs
      | true =>
        obtain ⟨hhost, hres⟩ := hs.event hev
        have hstep : Sys.step H s i ok
            = { s with callers := s.callers.set i (PC.done s.host) } := by
          simp [Sys.step, hget, hev]
        rw [hstep]
        have hla : looksAt (s.callers.set i (PC.done s.host)) = looksAt s.callers := by
          simpa using looksAt_set s.callers i PC.waiting (PC.done s.host) hget
        refine ⟨hs.host_val, hs.lookups_le, ?_, hs.event, ?_, ?_, hs.one_lookup, ?_⟩
        · intro h0
          exact absurd ((hs.fresh h0).2.2.1) (by simp [hev])
        · intro hr
          rw [hres] at hr
          cases hr
        · intro hr
          have := hs.idle_no_look hr
          show looksAt (s.callers.set i (PC.done s.host)) = 0
          omega
        · intro v hv
          rcases List.mem_or_eq_of_mem_set hv with hv' | hv'
          · exact hs.done_val v hv'
          · cases hv'
            exact hhost

/-- The invariant is preserved by whole schedules. -/
theorem run_inv (H : String) (s : Sys) (sched : List (Nat × Bool))
    (hs : Inv H s) : Inv H (Sys.run H s sched) := by
  induction sched generalizing s with
  | nil => exact hs
  | cons p rest ih =>
    have : Sys.run H s (p :: rest) = Sys.run H (Sys.step H s p.1 p.2) rest := by
      simp [Sys.run]
    rw [this]
    exact ih _ (step_inv H s p.1 p.2 hs)

/-- The invariant holds initially. -/
theorem init_inv (H : String) (n : Nat) : Inv H (Sys.init n) := by
  have hrep : ∀ pc ∈ List.replicate n PC.start, pc = PC.start :=
    fun pc h => List.eq_of_mem_replicate h
  have hla : looksAt (List.replicate n PC.start) = 0 := by
    induction n with
    | zero => rfl
    | succ m ih =>
      simp only [List.replicate, looksAt, List.countP_cons] at ih ⊢
      simp [ih]
  refine ⟨?_, ?_, ?_, ?_, ?_, ?_, ?_, ?_⟩
  · intro h hh
    cases hh
  · exact Nat.zero_le 1
  · intro _
    exact ⟨rfl, rfl, rfl, hrep⟩
  · intro hev
    cases hev
  · intro hr
    cases hr
  · intro _
    exact hla
  · intro h1
    cases h1
  · intro v hv
    have := hrep _ hv
    cases this

/-- A step never changes the number of callers. -/
theorem step_length (H : String) (s : Sys) (i : Nat) (ok : Bool) :
    (Sys.step H s i ok).callers.length = s.callers.length := by
  unfold Sys.step
  repeat' split
  all_goals simp [List.length_set]

/-- A schedule never changes the number of callers. -/
theorem run_length (H : String) (s : Sys) (sched : List (Nat × Bool)) :
    (Sys.run H s sched).callers.length = s.callers.length := by
  induction sched generalizing s with
  | nil => rfl
  | cons p rest ih =>
    have : Sys.run H s (p :: rest) = Sys.run H (Sys.step H s p.1 p.2) rest := by
      simp [Sys.run]
    rw [this, ih, step_length]

/-- Witness for C10: class path piece `''`, instance argument `'api'`;
construction succeeds, the stored piece is `''` and the base URL is the
bare host. -/
theorem instance_pfx_discarded_witness :
    ((⟨none, some "svc", ""⟩ : ClsAttrs).pfx = "" ∧ "api" ≠ ""
     ∧ client_init ⟨none, some "svc", ""⟩ (some "stag") none (some "api") none
         = Except.ok ⟨false, none, some "svc", some "", some "stag"⟩)
    ∧ ((⟨false, none, some "svc", some "", some "stag"⟩ : InitState).pfx = some ""
       ∧ get_base_url "hosturl"
           (⟨false, none, some "svc", some "", some "stag"⟩ : InitState).pfx
         = "hosturl") :=
  ⟨⟨rfl, by decide, rfl⟩,
   instance_pfx_discarded ⟨none, some "svc", ""⟩ (some "stag") none none "api"
     "hosturl" ⟨false, none, some "svc", some "", some "stag"⟩ rfl (by decide) rfl⟩

/-- C1: starting from a Dynamic client with no cached host, under any
cooperative interleaving of N concurrent `get_host` callers that lets
every caller finish, exactly one resolver-service lookup is performed,
every caller receives the one resolved host, and at every point of the
schedule at most one lookup has ever been started (the single-flight
marker: callers that find `__resolving` set suspend on the shared
`__resolved` event instead of starting a duplicate lookup, and callers
that arrive after completion read the cached host). -/
theorem resolve_host_single_flight (H : String) (n : Nat)
    (sched : List (Nat × Bool)) (hn : 0 < n)
    (hdone : ∀ pc ∈ (Sys.run H (Sys.init n) sched).callers, pc.isDone = true) :
    (Sys.run H (Sys.init n) sched).lookups = 1
    ∧ (∀ pc ∈ (Sys.run H (Sys.init n) sched).callers, pc = PC.done (some H))
    ∧ (∀ pre suf, sched = pre ++ suf → (Sys.run H (Sys.init n) pre).lookups ≤ 1) := by
  have hinv := run_inv H (Sys.init n) sched (init_inv H n)
  have hlen : (Sys.run H (Sys.init n) sched).callers.length = n := by
    rw [run_length]
    simp [Sys.init]
  have hne : (Sys.run H (Sys.init n) sched).callers ≠ [] := by
    intro h
    rw [h] at hlen
    simp at hlen
    omega
  have h0 : (Sys.run H (Sys.init n) sched).lookups ≠ 0 := by
    intro h0
    obtain ⟨-, -, -, hall⟩ := hinv.fresh h0
    obtain ⟨pc, hpc⟩ := List.exists_mem_of_ne_nil _ hne
    have hd := hdone pc hpc
    rw [hall pc hpc] at hd
    cases hd
  refine ⟨?_, ?_, ?_⟩
  · have := hinv.lookups_le
    omega
  · intro pc hpc
    have hd := hdone pc hpc
    cases pc with
    | done v =>
      rw [hinv.done_val v hpc]
    | start => cases hd
    | looking => cases hd
    | waiting => cases hd
    | failed => cases hd
  · intro pre suf hps
    exact (run_inv H (Sys.init n) pre (init_inv H n)).lookups_le

/-- Witness for C1: three concurrent callers under the drain schedule
`wsched` all complete; one lookup, same host everywhere. -/
theorem resolve_host_single_flight_witness :
    (0 < 3
     ∧ ∀ pc ∈ (Sys.run "h" (Sys.init 3) wsched).callers, pc.isDone = true)
    ∧ (Sys.run "h" (Sys.init 3) wsched).lookups = 1
    ∧ (∀ pc ∈ (Sys.run "h" (Sys.init 3) wsched).callers, pc = PC.done (some "h")) :=
  ⟨⟨by decide, by decide⟩,
   (resolve_host_single_flight "h" 3 wsched (by decide) (by decide)).1,
   (resolve_host_single_flight "h" 3 wsched (by decide) (by decide)).2.1⟩

/-- A wedged state is preserved by every further scheduler step, and a
caller parked on the never-set event stays parked. -/
theorem step_stuck (H : String) (s : Sys) (i : Nat) (ok : Bool)
    (hs : Stuck s) : Stuck (Sys.step H s i ok) := by
  obtain ⟨hh, hr, he, hl, hc⟩ := hs
  cases hget : s.callers[i]? with
  | none =>
    have hstep : Sys.step H s i ok = s := by
      simp only [Sys.step, hget]
    rw [hstep]
    exact ⟨hh, hr, he, hl, hc⟩
  | some pc =>
    have hmem : pc ∈ s.callers := List.getElem?_mem hget
    rcases hc pc hmem with hpc | hpc | hpc
    all_goals cases hpc
    · have hstep : Sys.step H s i ok
          = { s with callers := s.callers.set i PC.waiting } := by
        simp [Sys.step, hget, hh, hr]
      rw [hstep]
      refine ⟨hh, hr, he, hl, ?_⟩
      intro pc' hpc'
      rcases List.mem_or_eq_of_mem_set hpc' with h' | h'
      · exact hc pc' h'
      · rw [h']
        exact Or.inr (Or.inl rfl)
    · have hstep : Sys.step H s i ok = s := by
        simp [Sys.step, hget, he]
      rw [hstep]
      exact ⟨hh, hr, he, hl, hc⟩
    · have hstep : Sys.step H s i ok = s := by
        simp only [Sys.step, hget]
      rw [hstep]
      exact ⟨hh, hr, he, hl, hc⟩

/-- A wedged state is preserved by every further schedule. -/
theorem run_stuck (H : String) (s : Sys) (cont : List (Nat × Bool))
    (hs : Stuck s) : Stuck (Sys.run H s cont) := by
  induction cont generalizing s with
  | nil => exact hs
  | cons p rest ih =>
    have : Sys.run H s (p :: rest) = Sys.run H (Sys.step H s p.1 p.2) rest := by
      simp [Sys.run]
    rw [this]
    exact ih _ (step_stuck H s p.1 p.2 hs)

/-- In a wedged state a parked caller stays parked forever. -/
theorem run_stuck_waiting (H : String) (s : Sys) (cont : List (Nat × Bool))
    (i : Nat) (hs : Stuck s) (hw : s.callers[i]? = some PC.waiting) :
    (Sys.run H s cont).callers[i]? = some PC.waiting := by
  induction cont generalizing s with
  | nil => exact hw
  | cons p rest ih =>
    have hrun : Sys.run H s (p :: rest) = Sys.run H (Sys.step H s p.1 p.2) rest := by
      simp [Sys.run]
    rw [hrun]
    refine ih (Sys.step H s p.1 p.2) (step_stuck H s p.1 p.2 hs) ?_
    obtain ⟨hh, hr, he, hl, hc⟩ := hs
    cases hget : s.callers[p.1]? with
    | none =>
      have hstep : Sys.step H s p.1 p.2 = s := by
        simp only [Sys.step, hget]
      rw [hstep]
      exact hw
    | some pc =>
      have hmem : pc ∈ s.callers := List.getElem?_mem hget
      by_cases hip : p.1 = i
      · subst hip
        rw [hget] at hw
        cases hw
        have hstep : Sys.step H s p.1 p.2 = s := by
          simp [Sys.step, hget, he]
        rw [hstep]
        exact hget
      · rcases hc pc hmem with hpc | hpc | hpc
        all_goals cases hpc
        · have hstep : Sys.step H s p.1 p.2
              = { s with callers := s.callers.set p.1 PC.waiting } := by
            simp [Sys.step, hget, hh, hr]
          rw [hstep]
          show (s.callers.set p.1 PC.waiting)[i]? = some PC.waiting
          rw [List.getElem?_set_ne hip]
          exact hw
        · have hstep : Sys.step H s p.1 p.2 = s := by
            simp [Sys.step, hget, he]
          rw [hstep]
          exact hw
        · have hstep : Sys.step H s p.1 p.2 = s := by
            simp only [Sys.step, hget]
          rw [hstep]
          exact hw

/-- C4: a refutation run for failure handling.  `failSys` is the state
after caller 0 started the lookup, caller 1 suspended on the event, and
the lookup then raised.  Under every continuation schedule the host stays
unresolved (the true part of the claim), but no fresh resolution is ever
started (`lookups` stays 1), caller 1 — the waiter the failure should
have reached — is still parked on the never-set event, and no caller ever
completes: `__resolving` is left set and the event unset, so the failure
reaches only the resolving caller and every later `get_host` call waits
forever instead of retrying from scratch. -/
theorem resolution_failure_wedges_client (cont : List (Nat × Bool)) :
    (Sys.run "h" failSys cont).host = none
    ∧ (Sys.run "h" failSys cont).lookups = 1
    ∧ (Sys.run "h" failSys cont).callers[1]? = some PC.waiting
    ∧ ∀ pc ∈ (Sys.run "h" failSys cont).callers, pc.isDone = false := by
  have h0 : Stuck failSys := by
    unfold Stuck
    decide
  have hstuck := run_stuck "h" failSys cont h0
  obtain ⟨hh, hr, he, hl, hc⟩ := hstuck
  refine ⟨hh, hl, ?_, ?_⟩
  · exact run_stuck_waiting "h" failSys cont 1 h0 (by decide)
  · intro pc hpc
    rcases hc pc hpc with h' | h' | h' <;> rw [h'] <;> rfl

end GenericCli
